import Mathlib

/-!
Verification development for the pill-doser dosage tracker.

The definitions below are a shallow embedding of the JavaScript source:

* `src/script.js` — the browser front end: `calculateHoursBetween`,
  `updateRateDisplay`, `updateStatisticsDisplay`, `calculatePlotData`,
  and the local-list filter in `removeDosageEntryHandler`;
* `src/unnamed/part_000` (first revision) — the Google Apps Script store:
  the bottom-up scan-and-delete loop of `handleRemoveData`.

Modelling conventions:

* Instants are epoch milliseconds.  Timestamps parsed from ISO strings by
  Luxon are always integral milliseconds, so parsed event times and `now`
  are `ℤ`; derived instants (the backward-projected start, obtained by
  subtracting a fractional number of hours) are `ℚ`.
* JavaScript numbers are modelled as `ℚ`.  A `parseFloat`/`fromISO` result
  is `Option _` with `none` for `NaN`/invalid input.
* `calculateHoursBetween` takes `Option ℚ` arguments and returns `0` when
  either side is invalid, exactly as the source returns `0` after the
  validity check fails.
* In `calculatePlotData` the backward-projected start
  `firstEventTimeDT.minus({hours: amount / rate})` is modelled with exact
  rational division.  This is faithful for every `rate ≠ 0`; for
  `rate = 0` the source produces an invalid Luxon date (division by zero
  gives `Infinity`/`NaN`), a state the rational model cannot represent.
  The only call site (`plotDosageGraph`, line 355) guards
  `currentRate <= 0`, so theorems about the curve assume `0 < rate`.
  `updateStatisticsDisplay` *is* reachable with `rate = 0`, so its
  projected start is modelled as an `Option` and is `none` exactly when
  the source date is invalid (`rate = 0` or unparseable first amount).
-/

/-- Model of `calculateHoursBetween` (script.js lines 105-134): absolute
difference of two instants in fractional hours; returns `0` when either
input is invalid (`none`). -/
def calculateHoursBetween : Option ℚ → Option ℚ → ℚ
  | some a, some b => |b - a| / 3600000
  | _, _ => 0

/-- One event as handed to the front-end computations: the results of
`parseFloat(event.dosageAmount)` and `luxon.DateTime.fromISO(event.dosageTime)`.
`none` models `NaN` / an invalid date. -/
structure RawEvent where
  dosageAmount : Option ℚ
  dosageTime : Option ℤ
deriving DecidableEq

/-- A validated event inside `calculatePlotData` after the map/filter at
script.js lines 443-453: a parsed time and a parsed, nonnegative amount. -/
structure PlotEvent where
  time : ℤ
  amount : ℚ
deriving DecidableEq

/-- One vertex of the output curve: a label instant (ms) and the plotted
"needed" (deficit) value. -/
structure Point where
  t : ℚ
  deficit : ℚ
deriving DecidableEq

/-- The map/filter step of `calculatePlotData` (lines 444-453): an event
survives iff its time parses and its amount parses to a value `≥ 0`
(the source skips `!eventTimeDT.isValid || isNaN(dosageAmount) || dosageAmount < 0`). -/
def toPlotEvent (e : RawEvent) : Option PlotEvent :=
  match e.dosageTime, e.dosageAmount with
  | some t, some a => if a < 0 then none else some ⟨t, a⟩
  | _, _ => none

def validEvents (events : List RawEvent) : List PlotEvent :=
  events.filterMap toPlotEvent

/-- Stable insertion used to model the JavaScript stable ascending sort
`.sort((a, b) => a.eventTimeDT.toMillis() - b.eventTimeDT.toMillis())`
(line 454). -/
def insertSortedEvent (e : PlotEvent) : List PlotEvent → List PlotEvent
  | [] => [e]
  | f :: rest => if e.time ≤ f.time then e :: f :: rest else f :: insertSortedEvent e rest

def sortEventsList : List PlotEvent → List PlotEvent
  | [] => []
  | e :: rest => insertSortedEvent e (sortEventsList rest)

/-- `sortedEvents` of `calculatePlotData` (lines 443-454): parse, filter,
sort ascending by timestamp (stable). -/
def sortedEvents (events : List RawEvent) : List PlotEvent :=
  sortEventsList (validEvents events)

/-- `projectedStartTimeDT` (lines 468-469): the first event time pushed
back by `amount / rate` hours (one hour = 3600000 ms). -/
def projStartOf (rate : ℚ) (first : PlotEvent) : ℚ :=
  (first.time : ℚ) - first.amount / rate * 3600000

/-- Final `cumulativeDosageTaken` after the event loop: sum of the sorted
amounts of the events. -/
def cumAmounts (evs : List PlotEvent) : ℚ :=
  evs.foldl (fun sum e => sum + e.amount) 0

/-- The two seed vertices (lines 471-483): the projected start at deficit 0,
and the point one millisecond before the first dose carrying the ideal
intake accumulated since the projected start. -/
def initialPoints (rate : ℚ) (first : PlotEvent) : List Point :=
  [⟨projStartOf rate first, 0⟩,
   ⟨(first.time : ℚ) - 1,
    rate * calculateHoursBetween (some (projStartOf rate first)) (some (first.time : ℚ))⟩]

/-- The `sortedEvents.forEach` loop (lines 485-506).  For each event: an
ideal intake from the projected start; a "just before" vertex one ms
earlier (or an in-place overwrite of the last vertex when the times are
equal); then the "after dose" vertex with the dose added to the running
cumulative. -/
def pointsAfterEvents (rate projStart : ℚ) : List PlotEvent → ℚ → List Point → List Point
  | [], _, pts => pts
  | e :: rest, cum, pts =>
    let ideal := rate * calculateHoursBetween (some projStart) (some (e.time : ℚ))
    let pts1 :=
      match pts.getLast? with
      | none => pts
      | some p =>
        if (e.time : ℚ) = p.t then pts.dropLast ++ [⟨p.t, ideal - cum⟩]
        else pts ++ [⟨(e.time : ℚ) - 1, ideal - cum⟩]
    pointsAfterEvents rate projStart rest (cum + e.amount) (pts1 ++ [⟨(e.time : ℚ), ideal - (cum + e.amount)⟩])

/-- The closing block of `calculatePlotData` (lines 508-524): a vertex at
`now` is appended when the label list is empty or `now` is strictly after
the last label; when `now` equals the last label the last deficit is
overwritten in place; otherwise the curve is returned unchanged. -/
def nowStep (rate projStart cum : ℚ) (now : ℤ) (walked : List Point) : List Point :=
  match walked.getLast? with
  | none => walked ++ [⟨(now : ℚ), rate * calculateHoursBetween (some projStart) (some (now : ℚ)) - cum⟩]
  | some p =>
    if p.t < (now : ℚ) then
      walked ++ [⟨(now : ℚ), rate * calculateHoursBetween (some projStart) (some (now : ℚ)) - cum⟩]
    else if (now : ℚ) = p.t then
      walked.dropLast ++ [⟨p.t, rate * calculateHoursBetween (some projStart) (some (now : ℚ)) - cum⟩]
    else walked

/-- Curve after seeding and the event loop, before the `now` handling. -/
def curveCore (rate : ℚ) (sorted : List PlotEvent) : List Point :=
  match sorted with
  | [] => []
  | first :: rest =>
    pointsAfterEvents rate (projStartOf rate first) (first :: rest) 0 (initialPoints rate first)

/-- The labels/points produced by `calculatePlotData` up to (and not
including) the final `now` block. -/
def walkedPoints (rate : ℚ) (events : List RawEvent) : List Point :=
  curveCore rate (sortedEvents events)

def plotCore (rate : ℚ) (sorted : List PlotEvent) (now : ℤ) : List Point :=
  match sorted with
  | [] => []
  | first :: rest =>
    nowStep rate (projStartOf rate first) (cumAmounts (first :: rest)) now
      (curveCore rate (first :: rest))

/-- Model of `calculatePlotData` (script.js lines 442-527): the emitted
curve, as a list of `(label, needed)` vertices.  An empty result models
the early return `{labels: [], neededDataPoints: []}` at lines 456-459. -/
def calculatePlotData (rate : ℚ) (events : List RawEvent) (now : ℤ) : List Point :=
  plotCore rate (sortedEvents events) now

/-- A displayed statistic cell: either the literal N/A string or a
numeric value (display rounding by `toFixed` is formatting and is not
modelled). -/
inductive StatVal
  | na
  | val (q : ℚ)
deriving DecidableEq

/-- The seven statistic cells written by `updateStatisticsDisplay`
(`needed`, `totalGiven`, `totalNeeded`, `half`, `half_time`, `one`,
`one_time`).  The time cells carry the same hour offset their
`formatTimeOffset` rendering is derived from. -/
structure StatsDisplay where
  needed : StatVal
  totalGiven : StatVal
  totalNeeded : StatVal
  half : StatVal
  halfTime : StatVal
  one : StatVal
  oneTime : StatVal
deriving DecidableEq

def allNA : StatsDisplay :=
  ⟨StatVal.na, StatVal.na, StatVal.na, StatVal.na, StatVal.na, StatVal.na, StatVal.na⟩

/-- `totalGiven` (line 255): fold of `parseFloat(e.dosageAmount) || 0`. -/
def totalGivenStat (events : List RawEvent) : ℚ :=
  events.foldl (fun sum e => sum + e.dosageAmount.getD 0) 0

/-- `projectedStartTimeDT` inside `updateStatisticsDisplay` (lines 262-265).
The Luxon date is invalid (`none`) exactly when `initialDeficitHours` is
not finite: the first amount is `NaN`, or the rate is `0` (division gives
`Infinity`/`NaN`). -/
def statsProjStart (rate : ℚ) (a0 : Option ℚ) (t0 : ℤ) : Option ℚ :=
  match a0 with
  | none => none
  | some a => if rate = 0 then none else some ((t0 : ℚ) - a / rate * 3600000)

/-- `totalNeededIdeal` (lines 269-279): `rate * hoursElapsed`, where
`hoursElapsed` adds the (possibly zero, on invalid dates) spans from the
projected start to the first event and from the first event to `now`. -/
def statsIdeal (rate : ℚ) (events : List RawEvent) (now : ℤ) : ℚ :=
  match events with
  | [] => 0
  | e0 :: _ =>
    match e0.dosageTime with
    | none => 0
    | some t0 =>
      rate * (calculateHoursBetween (statsProjStart rate e0.dosageAmount t0) (some (t0 : ℚ))
        + calculateHoursBetween (some (t0 : ℚ)) (some (now : ℚ)))

/-- `currentNeeded` (line 280): the zero-clamped live deficit. -/
def currentNeededStat (rate : ℚ) (events : List RawEvent) (now : ℤ) : ℚ :=
  max 0 (statsIdeal rate events now - totalGivenStat events)

/-- The body of `updateStatisticsDisplay` past the first guard
(lines 255-302), acting on the previously displayed cells: an invalid or
missing first event returns early, leaving the display untouched. -/
def statsCore (rate : ℚ) (events : List RawEvent) (now : ℤ) (prev : StatsDisplay) : StatsDisplay :=
  match events with
  | [] => prev
  | e0 :: rest =>
    match e0.dosageTime with
    | none => prev
    | some _ =>
      { needed := StatVal.val (currentNeededStat rate (e0 :: rest) now)
        totalGiven := StatVal.val (totalGivenStat (e0 :: rest))
        totalNeeded := StatVal.val (statsIdeal rate (e0 :: rest) now)
        half := if 0 < rate then
            StatVal.val ((1/2 - currentNeededStat rate (e0 :: rest) now) / rate) else StatVal.na
        halfTime := if 0 < rate then
            StatVal.val ((1/2 - currentNeededStat rate (e0 :: rest) now) / rate) else StatVal.na
        one := if 0 < rate then
            StatVal.val ((1 - currentNeededStat rate (e0 :: rest) now) / rate) else StatVal.na
        oneTime := if 0 < rate then
            StatVal.val ((1 - currentNeededStat rate (e0 :: rest) now) / rate) else StatVal.na }

/-- Model of `updateStatisticsDisplay` (script.js lines 237-303) as a
transformation of the displayed cells.  The guard at line 247 blanks every
cell to the N/A sentinel only when the list is empty *and* the rate is zero. -/
def updateStatisticsDisplay (rate : ℚ) (events : List RawEvent) (now : ℤ)
    (prev : StatsDisplay) : StatsDisplay :=
  if events = [] ∧ rate = 0 then allNA
  else statsCore rate events now prev

/-- Model of `updateRateDisplay` (script.js lines 217-229): the new
`currentRate` computed from `parseFloat(pillsElement.value)` and
`parseFloat(hourElement.value)`. -/
def updateRateDisplay (pills hours : Option ℚ) : ℚ :=
  match pills, hours with
  | some p, some h => if h ≠ 0 then p / h else 0
  | _, _ => 0

/-- A cell of the date column of the sheet as read by `getValues()` in
`handleRemoveData` (part_000, first revision): either a string or some
other value (which the loop skips). -/
inductive Cell
  | str (s : String)
  | other
deriving DecidableEq

/-- The match test of `handleRemoveData` (part_000 lines 227-229): only
string cells are compared, by exact string equality, against the target.
Both sides are `trim()`ed by the source before comparison, so strings here
stand for the trimmed contents (`handleAddData` already stores trimmed
strings). -/
def cellMatches (target : String) : Cell → Bool
  | Cell.str s => s == target
  | Cell.other => false

/-- Model of the scan-and-delete core of `handleRemoveData` (part_000
lines 213-249) on the list of data rows, top to bottom (the appended,
most recent entry last).  The loop walks from the bottom row upward and
deletes the first matching row it meets, then breaks.  Returns the
remaining rows and the `removed` flag. -/
def handleRemoveData (target : String) : List Cell → List Cell × Bool
  | [] => ([], false)
  | c :: rest =>
    let r := handleRemoveData target rest
    if r.2 then (c :: r.1, true)
    else if cellMatches target c then (rest, true)
    else (c :: rest, false)

/-- An entry of the in-memory `eventsData` list: a numeric amount
and the `toMillis()` of its parsed ISO timestamp (`none` when invalid). -/
structure LocalEvent where
  dosageAmount : ℚ
  dosageTime : Option ℤ
deriving DecidableEq

/-- The local-list update in `removeDosageEntryHandler` (script.js lines
634-637): keep exactly the events whose parsed timestamp differs from the
removed one. -/
def removeLocalEvents (t : ℤ) (events : List LocalEvent) : List LocalEvent :=
  events.filter (fun e => e.dosageTime != some t)

/-- Comparison on curve vertices by label instant. -/
def ptLE (p q : Point) : Prop := p.t ≤ q.t

instance : DecidableRel ptLE := fun p q => inferInstanceAs (Decidable (p.t ≤ q.t))

/-- Comparison on validated events by timestamp. -/
def evLE (a b : PlotEvent) : Prop := a.time ≤ b.time

instance : DecidableRel evLE := fun a b => inferInstanceAs (Decidable (a.time ≤ b.time))

/-! ### Helper lemmas -/

theorem insertSortedEvent_perm (e : PlotEvent) (l : List PlotEvent) :
    List.Perm (insertSortedEvent e l) (e :: l) := by
  induction l with
  | nil => exact List.Perm.refl _
  | cons f rest ih =>
    by_cases h : e.time ≤ f.time
    · simp [insertSortedEvent, h]
    · simp only [insertSortedEvent, if_neg h]
      exact (ih.cons f).trans (List.Perm.swap e f rest)

theorem sortEventsList_perm (l : List PlotEvent) : List.Perm (sortEventsList l) l := by
  induction l with
  | nil => exact List.Perm.refl _
  | cons e rest ih =>
    exact (insertSortedEvent_perm e (sortEventsList rest)).trans (ih.cons e)

theorem mem_insertSortedEvent {x e : PlotEvent} {l : List PlotEvent} :
    x ∈ insertSortedEvent e l ↔ x = e ∨ x ∈ l := by
  rw [(insertSortedEvent_perm e l).mem_iff, List.mem_cons]

theorem insertSortedEvent_pairwise (e : PlotEvent) (l : List PlotEvent)
    (h : l.Pairwise evLE) : (insertSortedEvent e l).Pairwise evLE := by
  induction l with
  | nil => simp [insertSortedEvent, List.pairwise_singleton]
  | cons f rest ih =>
    rcases List.pairwise_cons.mp h with ⟨hf, hrest⟩
    by_cases hle : e.time ≤ f.time
    · simp only [insertSortedEvent, if_pos hle]
      refine List.pairwise_cons.mpr ⟨?_, h⟩
      intro x hx
      rcases List.mem_cons.mp hx with rfl | hx
      · exact hle
      · exact le_trans hle (hf x hx)
    · simp only [insertSortedEvent, if_neg hle]
      refine List.pairwise_cons.mpr ⟨?_, ih hrest⟩
      intro x hx
      rcases mem_insertSortedEvent.mp hx with rfl | hx
      · exact le_of_lt (lt_of_not_le hle)
      · exact hf x hx

theorem sortEventsList_pairwise (l : List PlotEvent) :
    (sortEventsList l).Pairwise evLE := by
  induction l with
  | nil => simp [sortEventsList]
  | cons e rest ih => exact insertSortedEvent_pairwise e (sortEventsList rest) ih

theorem foldl_add_eq {α : Type} (f : α → ℚ) :
    ∀ (l : List α) (a : ℚ), l.foldl (fun sum e => sum + f e) a = a + (l.map f).sum := by
  intro l
  induction l with
  | nil => simp
  | cons e rest ih =>
    intro a
    simp only [List.foldl_cons, List.map_cons, List.sum_cons, ih (a + f e)]
    ring

theorem pointsAfterEvents_append (rate projStart : ℚ) :
    ∀ (evs : List PlotEvent) (cum : ℚ) (pre pts : List Point), pts ≠ [] →
      pointsAfterEvents rate projStart evs cum (pre ++ pts)
        = pre ++ pointsAfterEvents rate projStart evs cum pts := by
  intro evs
  induction evs with
  | nil => intro cum pre pts _; simp [pointsAfterEvents]
  | cons e rest ih =>
    intro cum pre pts hne
    simp only [pointsAfterEvents]
    rcases List.exists_cons_of_ne_nil hne with ⟨x, xs, rfl⟩
    rw [List.getLast?_append]
    cases hp : (x :: xs).getLast? with
    | none => simp at hp
    | some p =>
      simp only [Option.or_some]
      by_cases hc : (e.time : ℚ) = p.t
      · rw [if_pos hc, if_pos hc,
          List.dropLast_append_of_ne_nil _ (List.cons_ne_nil x xs)]
        simp only [List.append_assoc]
        refine ih _ pre _ ?_
        simp
      · rw [if_neg hc, if_neg hc]
        simp only [List.append_assoc]
        refine ih _ pre _ ?_
        simp

theorem chain'_replaceLast (l : List Point) (p q : Point)
    (hp : l.getLast? = some p) (hq : q.t = p.t) (h : List.Chain' ptLE l) :
    List.Chain' ptLE (l.dropLast ++ [q]) := by
  induction l using List.reverseRecOn with
  | nil => simp at hp
  | append_singleton l a _ =>
    rw [List.getLast?_concat] at hp
    cases hp
    rw [List.dropLast_concat]
    rw [List.chain'_append] at h ⊢
    refine ⟨h.1, List.chain'_singleton q, ?_⟩
    intro x hx y hy
    simp only [List.head?_cons, Option.mem_def, Option.some.injEq] at hy
    subst hy
    have := h.2.2 x hx p (by simp)
    simpa [ptLE, hq] using this

theorem pointsAfterEvents_chain (rate projStart : ℚ) :
    ∀ (evs : List PlotEvent) (cum : ℚ) (pts : List Point) (tprev : ℤ) (p : Point),
      List.Chain' ptLE pts → pts.getLast? = some p → p.t = (tprev : ℚ) →
      List.Pairwise evLE evs → (∀ e ∈ evs, tprev ≤ e.time) →
      List.Chain' ptLE (pointsAfterEvents rate projStart evs cum pts)
      ∧ ∃ (tl : ℤ) (q : Point),
          (pointsAfterEvents rate projStart evs cum pts).getLast? = some q
          ∧ q.t = (tl : ℚ) ∧ tprev ≤ tl := by
  intro evs
  induction evs with
  | nil =>
    intro cum pts tprev p h1 h2 h3 _ _
    exact ⟨by simpa [pointsAfterEvents] using h1,
      tprev, p, by simpa [pointsAfterEvents] using h2, h3, le_refl _⟩
  | cons e rest ih =>
    intro cum pts tprev p h1 h2 h3 hpw hge
    have hte : tprev ≤ e.time := hge e (List.mem_cons_self e rest)
    rcases List.pairwise_cons.mp hpw with ⟨hhead, hpwrest⟩
    simp only [pointsAfterEvents, h2]
    by_cases hc : (e.time : ℚ) = p.t
    · rw [if_pos hc]
      have hch1 : List.Chain' ptLE
          (pts.dropLast ++ [Point.mk p.t (rate * calculateHoursBetween (some projStart) (some (e.time : ℚ)) - cum)]) :=
        chain'_replaceLast pts p _ h2 rfl h1
      have hch2 : List.Chain' ptLE
          ((pts.dropLast ++ [Point.mk p.t (rate * calculateHoursBetween (some projStart) (some (e.time : ℚ)) - cum)])
            ++ [Point.mk (e.time : ℚ) (rate * calculateHoursBetween (some projStart) (some (e.time : ℚ)) - (cum + e.amount))]) := by
        refine List.Chain'.append hch1 (List.chain'_singleton _) ?_
        intro x hx y hy
        rw [List.getLast?_concat] at hx
        simp only [Option.mem_def, Option.some.injEq] at hx
        simp only [List.head?_cons, Option.mem_def, Option.some.injEq] at hy
        subst hx; subst hy
        exact le_of_eq hc.symm
      have hlast2 : ((pts.dropLast ++ [Point.mk p.t (rate * calculateHoursBetween (some projStart) (some (e.time : ℚ)) - cum)])
            ++ [Point.mk (e.time : ℚ) (rate * calculateHoursBetween (some projStart) (some (e.time : ℚ)) - (cum + e.amount))]).getLast?
          = some (Point.mk (e.time : ℚ) (rate * calculateHoursBetween (some projStart) (some (e.time : ℚ)) - (cum + e.amount))) :=
        List.getLast?_concat _
      have hrec := ih (cum + e.amount) _ e.time _ hch2 hlast2 rfl hpwrest
        (fun e' he' => hhead e' he')
      refine ⟨hrec.1, ?_⟩
      rcases hrec.2 with ⟨tl, q, hq1, hq2, hq3⟩
      exact ⟨tl, q, hq1, hq2, le_trans hte hq3⟩
    · rw [if_neg hc]
      have hlt : tprev < e.time := by
        rcases lt_or_eq_of_le hte with h | h
        · exact h
        · exfalso; exact hc (by rw [← h, h3])
      have hsucc : tprev + 1 ≤ e.time := Int.add_one_le_iff.mpr hlt
      have hcast : (tprev : ℚ) ≤ (e.time : ℚ) - 1 := by
        have h' : ((tprev + 1 : ℤ) : ℚ) ≤ ((e.time : ℤ) : ℚ) := by exact_mod_cast hsucc
        push_cast at h'
        linarith
      have hch1 : List.Chain' ptLE
          (pts ++ [Point.mk ((e.time : ℚ) - 1) (rate * calculateHoursBetween (some projStart) (some (e.time : ℚ)) - cum)]) := by
        refine List.Chain'.append h1 (List.chain'_singleton _) ?_
        intro x hx y hy
        rw [h2] at hx
        simp only [Option.mem_def, Option.some.injEq] at hx
        simp only [List.head?_cons, Option.mem_def, Option.some.injEq] at hy
        subst hx; subst hy
        show p.t ≤ (e.time : ℚ) - 1
        rw [h3]; exact hcast
      have hch2 : List.Chain' ptLE
          ((pts ++ [Point.mk ((e.time : ℚ) - 1) (rate * calculateHoursBetween (some projStart) (some (e.time : ℚ)) - cum)])
            ++ [Point.mk (e.time : ℚ) (rate * calculateHoursBetween (some projStart) (some (e.time : ℚ)) - (cum + e.amount))]) := by
        refine List.Chain'.append hch1 (List.chain'_singleton _) ?_
        intro x hx y hy
        rw [List.getLast?_concat] at hx
        simp only [Option.mem_def, Option.some.injEq] at hx
        simp only [List.head?_cons, Option.mem_def, Option.some.injEq] at hy
        subst hx; subst hy
        show (e.time : ℚ) - 1 ≤ (e.time : ℚ)
        linarith
      have hlast2 : ((pts ++ [Point.mk ((e.time : ℚ) - 1) (rate * calculateHoursBetween (some projStart) (some (e.time : ℚ)) - cum)])
            ++ [Point.mk (e.time : ℚ) (rate * calculateHoursBetween (some projStart) (some (e.time : ℚ)) - (cum + e.amount))]).getLast?
          = some (Point.mk (e.time : ℚ) (rate * calculateHoursBetween (some projStart) (some (e.time : ℚ)) - (cum + e.amount))) :=
        List.getLast?_concat _
      have hrec := ih (cum + e.amount) _ e.time _ hch2 hlast2 rfl hpwrest
        (fun e' he' => hhead e' he')
      refine ⟨hrec.1, ?_⟩
      rcases hrec.2 with ⟨tl, q, hq1, hq2, hq3⟩
      exact ⟨tl, q, hq1, hq2, le_trans hte hq3⟩

theorem nowStep_spec (rate projStart cum : ℚ) (now : ℤ) (walked : List Point) (p : Point)
    (hl : walked.getLast? = some p) :
    (p.t < (now : ℚ) → nowStep rate projStart cum now walked
        = walked ++ [Point.mk (now : ℚ) (rate * calculateHoursBetween (some projStart) (some (now : ℚ)) - cum)])
    ∧ ((now : ℚ) = p.t → nowStep rate projStart cum now walked
        = walked.dropLast ++ [Point.mk p.t (rate * calculateHoursBetween (some projStart) (some (now : ℚ)) - cum)])
    ∧ (¬ p.t < (now : ℚ) → (now : ℚ) ≠ p.t → nowStep rate projStart cum now walked = walked) := by
  refine ⟨?_, ?_, ?_⟩
  · intro h
    simp only [nowStep, hl]
    rw [if_pos h]
  · intro h
    simp only [nowStep, hl]
    rw [if_neg (by rw [h]; exact lt_irrefl _), if_pos h]
  · intro h1 h2
    simp only [nowStep, hl]
    rw [if_neg h1, if_neg h2]

theorem curveCore_cons_eq (rate : ℚ) (first : PlotEvent) (rest : List PlotEvent) :
    curveCore rate (first :: rest)
      = Point.mk (projStartOf rate first) 0
        :: pointsAfterEvents rate (projStartOf rate first) (first :: rest) 0
             [Point.mk ((first.time : ℚ) - 1)
               (rate * calculateHoursBetween (some (projStartOf rate first)) (some (first.time : ℚ)))] := by
  simp only [curveCore, initialPoints]
  have h := pointsAfterEvents_append rate (projStartOf rate first) (first :: rest) 0
      [Point.mk (projStartOf rate first) 0]
      [Point.mk ((first.time : ℚ) - 1)
        (rate * calculateHoursBetween (some (projStartOf rate first)) (some (first.time : ℚ)))]
      (by simp)
  simpa using h

theorem pointsAfterEvents_seed_structure (rate projStart : ℚ) (first : PlotEvent)
    (rest : List PlotEvent) (P1 : Point) (hne : (first.time : ℚ) ≠ P1.t) :
    pointsAfterEvents rate projStart (first :: rest) 0 [P1]
      = P1 :: Point.mk ((first.time : ℚ) - 1)
            (rate * calculateHoursBetween (some projStart) (some (first.time : ℚ)) - 0)
          :: pointsAfterEvents rate projStart rest (0 + first.amount)
              [Point.mk (first.time : ℚ)
                (rate * calculateHoursBetween (some projStart) (some (first.time : ℚ)) - (0 + first.amount))] := by
  simp only [pointsAfterEvents, List.getLast?_singleton]
  rw [if_neg hne]
  have h := pointsAfterEvents_append rate projStart rest (0 + first.amount)
      [P1, Point.mk ((first.time : ℚ) - 1)
        (rate * calculateHoursBetween (some projStart) (some (first.time : ℚ)) - 0)]
      [Point.mk (first.time : ℚ)
        (rate * calculateHoursBetween (some projStart) (some (first.time : ℚ)) - (0 + first.amount))]
      (by simp)
  simpa using h

theorem calculatePlotData_structure (rate : ℚ) (events : List RawEvent) (now : ℤ)
    (first : PlotEvent) (rest : List PlotEvent) (hse : sortedEvents events = first :: rest) :
    ∃ T : List Point,
      calculatePlotData rate events now = Point.mk (projStartOf rate first) 0 :: T
      ∧ List.Chain' ptLE T
      ∧ T.head? = some (Point.mk ((first.time : ℚ) - 1)
          (rate * calculateHoursBetween (some (projStartOf rate first)) (some (first.time : ℚ)))) := by
  have hpw : (first :: rest).Pairwise evLE := by
    have h := sortEventsList_pairwise (validEvents events)
    rw [show sortEventsList (validEvents events) = sortedEvents events from rfl, hse] at h
    exact h
  set ps := projStartOf rate first with hps
  set P1 : Point := Point.mk ((first.time : ℚ) - 1)
      (rate * calculateHoursBetween (some ps) (some (first.time : ℚ))) with hP1
  have hP1t : P1.t = ((first.time - 1 : ℤ) : ℚ) := by
    rw [hP1]; push_cast; rfl
  have hne1 : (first.time : ℚ) ≠ P1.t := by
    rw [hP1t]
    intro h
    have : (first.time : ℚ) = (first.time : ℚ) - 1 := by push_cast at h ⊢; linarith [h]
    linarith
  set W1 : List Point := pointsAfterEvents rate ps (first :: rest) 0 [P1] with hW1
  have hstruct := pointsAfterEvents_seed_structure rate ps first rest P1 hne1
  have hchain := pointsAfterEvents_chain rate ps (first :: rest) 0 [P1] (first.time - 1) P1
    (List.chain'_singleton P1) rfl hP1t hpw ?hge
  case hge =>
    intro e he
    rcases List.mem_cons.mp he with rfl | he
    · omega
    · have := (List.pairwise_cons.mp hpw).1 e he
      simp only [evLE] at this
      omega
  rcases hchain with ⟨hW1chain, tl, q, hW1last, hqt, _⟩
  have hW1head : W1.head? = some P1 := by rw [hW1, hstruct]; rfl
  have hW1ne : W1 ≠ [] := by rw [hW1, hstruct]; simp
  have hcurve : curveCore rate (first :: rest) = Point.mk ps 0 :: W1 :=
    curveCore_cons_eq rate first rest
  have hplot : calculatePlotData rate events now
      = nowStep rate ps (cumAmounts (first :: rest)) now (Point.mk ps 0 :: W1) := by
    rw [calculatePlotData, hse]
    simp only [plotCore]
    rw [hcurve]
  have hwl : (Point.mk ps 0 :: W1).getLast? = some q := by
    rw [show Point.mk ps 0 :: W1 = [Point.mk ps 0] ++ W1 from rfl, List.getLast?_append, hW1last]
    rfl
  have hspec := nowStep_spec rate ps (cumAmounts (first :: rest)) now (Point.mk ps 0 :: W1) q hwl
  by_cases h1 : q.t < (now : ℚ)
  · refine ⟨W1 ++ [Point.mk (now : ℚ)
      (rate * calculateHoursBetween (some ps) (some (now : ℚ)) - cumAmounts (first :: rest))], ?_, ?_, ?_⟩
    · rw [hplot, hspec.1 h1]; rfl
    · refine List.Chain'.append hW1chain (List.chain'_singleton _) ?_
      intro x hx y hy
      rw [hW1last] at hx
      simp only [Option.mem_def, Option.some.injEq] at hx
      simp only [List.head?_cons, Option.mem_def, Option.some.injEq] at hy
      subst hx; subst hy
      exact le_of_lt h1
    · rw [List.head?_append, hW1head]; rfl
  · by_cases h2 : (now : ℚ) = q.t
    · refine ⟨W1.dropLast ++ [Point.mk q.t
        (rate * calculateHoursBetween (some ps) (some (now : ℚ)) - cumAmounts (first :: rest))], ?_, ?_, ?_⟩
      · rw [hplot, hspec.2.1 h2,
          show Point.mk ps 0 :: W1 = [Point.mk ps 0] ++ W1 from rfl,
          List.dropLast_append_of_ne_nil _ hW1ne]
        rfl
      · exact chain'_replaceLast W1 q _ hW1last rfl hW1chain
      · rw [List.head?_append]
        rw [hW1, hstruct]
        rfl
    · refine ⟨W1, ?_, hW1chain, hW1head⟩
      rw [hplot, hspec.2.2 h1 h2]

/-! ### Claim theorems -/

/-- C3, counterexample: projecting an empty event list with a nonzero rate
does **not** blank the statistics.  `updateStatisticsDisplay` with
`rate = 1` and no events returns the previous display unchanged, so a
stale numeric `needed` cell (here `5`) survives, contradicting "every
derived field is the distinguished unavailable sentinel ... never a stale
numeric value". -/
theorem c3_counterexample :
    updateStatisticsDisplay 1 [] 0
        ⟨StatVal.val 5, StatVal.na, StatVal.na, StatVal.na, StatVal.na, StatVal.na, StatVal.na⟩
      = ⟨StatVal.val 5, StatVal.na, StatVal.na, StatVal.na, StatVal.na, StatVal.na, StatVal.na⟩
    ∧ StatVal.val (5 : ℚ) ≠ StatVal.na := by
  constructor
  · norm_num [updateStatisticsDisplay, statsCore]
  · intro h
    exact StatVal.noConfusion h

/-- C3, amended: projecting an empty event list always yields an empty
curve; the statistics are blanked to the unavailable sentinel only when
the rate is zero, and with a nonzero rate the statistics update returns
early, leaving the previously displayed values in place. -/
theorem c3_theorem :
    (∀ (rate : ℚ) (now : ℤ), calculatePlotData rate [] now = [])
    ∧ (∀ (now : ℤ) (prev : StatsDisplay), updateStatisticsDisplay 0 [] now prev = allNA)
    ∧ (∀ (rate : ℚ) (now : ℤ) (prev : StatsDisplay), rate ≠ 0 →
        updateStatisticsDisplay rate [] now prev = prev) := by
  refine ⟨?_, ?_, ?_⟩
  · intro rate now
    rfl
  · intro now prev
    simp [updateStatisticsDisplay]
  · intro rate now prev h
    simp [updateStatisticsDisplay, statsCore, h]

/-- C3, witness for the amended theorem at concrete inputs. -/
theorem c3_witness : updateStatisticsDisplay 1 [] 0 allNA = allNA :=
  c3_theorem.2.2 1 0 allNA (by norm_num)

/-- C5: `totalGiven` is the sum of the parseable amounts (a non-numeric
amount contributing `0`), it is invariant under every permutation of the
input events, and the cumulative total of the plotting walk likewise
equals the sum of the amounts of the valid events independently of the sort. -/
theorem c5_theorem :
    (∀ events : List RawEvent,
      totalGivenStat events = (events.map (fun e => e.dosageAmount.getD 0)).sum)
    ∧ (∀ events events' : List RawEvent, List.Perm events events' →
      totalGivenStat events = totalGivenStat events')
    ∧ (∀ events : List RawEvent,
      cumAmounts (sortedEvents events) = ((validEvents events).map PlotEvent.amount).sum) := by
  refine ⟨?_, ?_, ?_⟩
  · intro events
    have h := foldl_add_eq (fun e : RawEvent => e.dosageAmount.getD 0) events 0
    simpa [totalGivenStat] using h
  · intro events events' hp
    have h1 := foldl_add_eq (fun e : RawEvent => e.dosageAmount.getD 0) events 0
    have h2 := foldl_add_eq (fun e : RawEvent => e.dosageAmount.getD 0) events' 0
    simp only [totalGivenStat]
    rw [h1, h2]
    exact congrArg (0 + ·) (hp.map _).sum_eq
  · intro events
    have h := foldl_add_eq PlotEvent.amount (sortedEvents events) 0
    simp only [cumAmounts]
    rw [h]
    have hp : List.Perm (sortedEvents events) (validEvents events) := sortEventsList_perm _
    simpa using (hp.map PlotEvent.amount).sum_eq

/-- C5, witness: permutation invariance applied to a concrete swap. -/
theorem c5_witness :
    totalGivenStat [⟨some 1, some 0⟩, ⟨none, some 5⟩]
      = totalGivenStat [⟨none, some 5⟩, ⟨some 1, some 0⟩] :=
  c5_theorem.2.1 _ _ (List.Perm.swap _ _ _)

/-- C6, counterexample: the recomputed rate is negative when the pills
input parses negative (`pills = -1`, `hours = 8` gives `-1/8 < 0`),
contradicting the invariant `rate >= 0` after every recomputation. -/
theorem c6_counterexample : updateRateDisplay (some (-1)) (some 8) < 0 := by
  norm_num [updateRateDisplay]

/-- C6, amended: the rate is `0` whenever either input is absent or
non-numeric or the hours input is `0`, and the recomputed rate is
nonnegative whenever both inputs parse to nonnegative numbers (a negative
parsed input can make it negative). -/
theorem c6_theorem :
    (∀ p h : ℚ, 0 ≤ p → 0 ≤ h → 0 ≤ updateRateDisplay (some p) (some h))
    ∧ (∀ h : Option ℚ, updateRateDisplay none h = 0)
    ∧ (∀ p : Option ℚ, updateRateDisplay p none = 0)
    ∧ (∀ p : ℚ, updateRateDisplay (some p) (some 0) = 0) := by
  refine ⟨?_, ?_, ?_, ?_⟩
  · intro p h hp hh
    simp only [updateRateDisplay]
    split_ifs with hne
    · exact div_nonneg hp hh
    · exact le_refl 0
  · intro h
    cases h <;> rfl
  · intro p
    cases p <;> rfl
  · intro p
    simp [updateRateDisplay]

/-- C6, witness for the amended theorem at concrete inputs. -/
theorem c6_witness :
    0 ≤ updateRateDisplay (some 2) (some 8) ∧ updateRateDisplay (some 2) (some 0) = 0 :=
  ⟨c6_theorem.1 2 8 (by norm_num) (by norm_num), c6_theorem.2.2.2 2⟩

/-- C9: the remove operation of the store scans the data rows from the bottom
(most recent) end; if no row matches it returns the rows unchanged with
`removed = false`, and if some row matches it deletes exactly the lowest
matching row (the first match seen from the bottom) and reports
`removed = true`. -/
theorem c9_theorem :
    (∀ (target : String) (rows : List Cell),
        (∀ c ∈ rows, cellMatches target c = false) →
        handleRemoveData target rows = (rows, false))
    ∧ (∀ (target : String) (pre post : List Cell) (c : Cell),
        cellMatches target c = true →
        (∀ c' ∈ post, cellMatches target c' = false) →
        handleRemoveData target (pre ++ c :: post) = (pre ++ post, true)) := by
  have hno : ∀ (target : String) (rows : List Cell),
      (∀ c ∈ rows, cellMatches target c = false) →
      handleRemoveData target rows = (rows, false) := by
    intro target rows
    induction rows with
    | nil => intro _; rfl
    | cons c rest ih =>
      intro h
      have hrest := ih (fun c' hc' => h c' (List.mem_cons_of_mem c hc'))
      simp only [handleRemoveData, hrest]
      simp [h c (List.mem_cons_self c rest)]
  refine ⟨hno, ?_⟩
  intro target pre post c hc hpost
  induction pre with
  | nil =>
    simp only [List.nil_append, handleRemoveData, hno target post hpost]
    simp [hc]
  | cons p pre' ih =>
    simp only [List.cons_append, handleRemoveData]
    have ih' : handleRemoveData target (List.append pre' (c :: post)) = (pre' ++ post, true) := ih
    rw [ih']
    simp

/-- C9, witness: with two equal timestamps the scan deletes the lower
(most recently appended) of the two. -/
theorem c9_witness :
    handleRemoveData "2024-01-02T00:00:00Z"
        [Cell.str "2024-01-01T00:00:00Z", Cell.str "2024-01-02T00:00:00Z",
         Cell.str "2024-01-02T00:00:00Z", Cell.other]
      = ([Cell.str "2024-01-01T00:00:00Z", Cell.str "2024-01-02T00:00:00Z", Cell.other], true) := by
  have h := c9_theorem.2 "2024-01-02T00:00:00Z"
    [Cell.str "2024-01-01T00:00:00Z", Cell.str "2024-01-02T00:00:00Z"]
    [Cell.other] (Cell.str "2024-01-02T00:00:00Z") (by decide) (by decide)
  simpa using h

/-- C10: after a confirmed removal of timestamp `t` the filter in the client
drops from the local list every event whose parsed timestamp equals `t`
(all duplicates at once) and keeps exactly the events whose timestamp
differs. -/
theorem c10_theorem : ∀ (t : ℤ) (events : List LocalEvent) (e : LocalEvent),
    e ∈ removeLocalEvents t events ↔ (e ∈ events ∧ e.dosageTime ≠ some t) := by
  intro t events e
  simp [removeLocalEvents, List.mem_filter, bne_iff_ne]

/-- C2, counterexample: with `rate = 1`, one event of amount `1` at `t0 = 0`
and `now = +2h`, the final curve vertex carries deficit `2`, while the
claimed anchor-at-first-event model `rate * hoursBetween(t0, now) -
cumulativeGiven` gives `1`: the ideal line is not anchored at the earliest
event. -/
theorem c2_counterexample :
    (calculatePlotData 1 [⟨some 1, some 0⟩] 7200000).getLast? = some (Point.mk 7200000 2)
    ∧ 1 * calculateHoursBetween (some 0) (some 7200000)
        - cumAmounts (sortedEvents [⟨some 1, some 0⟩]) = 1
    ∧ (2 : ℚ) ≠ 1 := by
  refine ⟨?_, ?_, by norm_num⟩
  · norm_num [calculatePlotData, plotCore, sortedEvents, validEvents, toPlotEvent,
      sortEventsList, insertSortedEvent, curveCore, initialPoints, pointsAfterEvents,
      projStartOf, cumAmounts, nowStep, calculateHoursBetween]
  · norm_num [sortedEvents, validEvents, toPlotEvent, sortEventsList, insertSortedEvent,
      cumAmounts, calculateHoursBetween]

/-- C2, amended: the ideal-intake line is anchored at the backward-projected
start `t0 - firstAmount/rate` hours: for `rate > 0`, a nonnegative first
amount and `t ≥ t0`, the ideal cumulative used by the curve equals
`rate * hoursBetween(t0, t) + firstAmount`, and the ideal of the statistics
equals `rate * hoursBetween(t0, now) + firstAmount` — the
anchor-at-first-event value plus the first dose, not the anchored value
itself. -/
theorem c2_theorem :
    (∀ (rate : ℚ) (first : PlotEvent) (t : ℚ),
      0 < rate → 0 ≤ first.amount → (first.time : ℚ) ≤ t →
      rate * calculateHoursBetween (some (projStartOf rate first)) (some t)
        = rate * calculateHoursBetween (some (first.time : ℚ)) (some t) + first.amount)
    ∧ (∀ (rate : ℚ) (e0 : RawEvent) (rest : List RawEvent) (now : ℤ) (t0 : ℤ) (a0 : ℚ),
      0 < rate → e0.dosageTime = some t0 → e0.dosageAmount = some a0 → 0 ≤ a0 →
      statsIdeal rate (e0 :: rest) now
        = rate * calculateHoursBetween (some (t0 : ℚ)) (some (now : ℚ)) + a0) := by
  constructor
  · intro rate first t hrate ha ht
    simp only [calculateHoursBetween, projStartOf]
    have hq : 0 ≤ first.amount / rate := div_nonneg ha (le_of_lt hrate)
    have hq2 : 0 ≤ first.amount / rate * 3600000 := by positivity
    have h1 : 0 ≤ t - ((first.time : ℚ) - first.amount / rate * 3600000) := by linarith
    have h2 : 0 ≤ t - (first.time : ℚ) := by linarith
    rw [abs_of_nonneg h1, abs_of_nonneg h2]
    have hrne : rate ≠ 0 := ne_of_gt hrate
    field_simp
    ring
  · intro rate e0 rest now t0 a0 hrate ht ha ha0
    obtain ⟨da, dt⟩ := e0
    simp only at ht ha
    subst ht
    subst ha
    simp only [statsIdeal, statsProjStart]
    rw [if_neg (ne_of_gt hrate)]
    simp only [calculateHoursBetween]
    have habs : |(t0 : ℚ) - ((t0 : ℚ) - a0 / rate * 3600000)| = a0 / rate * 3600000 := by
      rw [show (t0 : ℚ) - ((t0 : ℚ) - a0 / rate * 3600000) = a0 / rate * 3600000 by ring]
      exact abs_of_nonneg (mul_nonneg (div_nonneg ha0 (le_of_lt hrate)) (by norm_num))
    rw [habs]
    have hrne : rate ≠ 0 := ne_of_gt hrate
    field_simp
    ring

/-- C2, witness for the amended theorem at concrete inputs. -/
theorem c2_witness :
    1 * calculateHoursBetween (some (projStartOf 1 ⟨0, 1⟩)) (some 3600000)
      = 1 * calculateHoursBetween (some ((0 : ℤ) : ℚ)) (some 3600000) + 1
    ∧ statsIdeal 1 [⟨some 1, some 0⟩] 3600000
      = 1 * calculateHoursBetween (some ((0 : ℤ) : ℚ)) (some ((3600000 : ℤ) : ℚ)) + 1 := by
  constructor
  · exact c2_theorem.1 1 ⟨0, 1⟩ 3600000 (by norm_num) (by norm_num) (by push_cast; norm_num)
  · exact c2_theorem.2 1 ⟨some 1, some 0⟩ [] 3600000 0 1 (by norm_num) rfl rfl (by norm_num)

/-- C7, counterexample: with `rate = 0` and a nonempty event list whose
first timestamp does not parse, `updateStatisticsDisplay` returns early
and leaves the previous display untouched, so the threshold cells are not
marked unavailable (a stale numeric `half` cell survives). -/
theorem c7_counterexample :
    (updateStatisticsDisplay 0 [⟨some 1, none⟩] 0
        ⟨StatVal.na, StatVal.na, StatVal.na, StatVal.val 3, StatVal.na, StatVal.na, StatVal.na⟩).half
      = StatVal.val 3
    ∧ StatVal.val (3 : ℚ) ≠ StatVal.na := by
  constructor
  · norm_num [updateStatisticsDisplay, statsCore]
  · intro h
    exact StatVal.noConfusion h

/-- C7, amended: for every nonempty event list whose first timestamp
parses, the threshold statistics are numeric exactly when `rate > 0` —
`half = (0.5 - currentDeficit)/rate` and `one = (1.0 - currentDeficit)/rate`
(possibly negative) — and are the unavailable sentinel when `rate ≤ 0`;
when the first timestamp does not parse the update leaves the previous
display in place. -/
theorem c7_theorem (rate : ℚ) (e0 : RawEvent) (rest : List RawEvent) (now : ℤ)
    (prev : StatsDisplay) (t0 : ℤ) (ht : e0.dosageTime = some t0) :
    (0 < rate →
      (updateStatisticsDisplay rate (e0 :: rest) now prev).half
        = StatVal.val ((1/2 - currentNeededStat rate (e0 :: rest) now) / rate)
      ∧ (updateStatisticsDisplay rate (e0 :: rest) now prev).one
        = StatVal.val ((1 - currentNeededStat rate (e0 :: rest) now) / rate))
    ∧ (¬ 0 < rate →
      (updateStatisticsDisplay rate (e0 :: rest) now prev).half = StatVal.na
      ∧ (updateStatisticsDisplay rate (e0 :: rest) now prev).one = StatVal.na) := by
  obtain ⟨da, dt⟩ := e0
  simp only at ht
  subst ht
  constructor
  · intro h
    constructor <;> simp [updateStatisticsDisplay, statsCore, h]
  · intro h
    constructor <;> simp [updateStatisticsDisplay, statsCore, h]

/-- C7, witness for both branches at concrete inputs. -/
theorem c7_witness :
    (updateStatisticsDisplay 1 [⟨some 1, some 0⟩] 0 allNA).half
      = StatVal.val ((1/2 - currentNeededStat 1 [⟨some 1, some 0⟩] 0) / 1)
    ∧ (updateStatisticsDisplay 0 [⟨some 1, some 0⟩] 0 allNA).half = StatVal.na := by
  constructor
  · exact ((c7_theorem 1 ⟨some 1, some 0⟩ [] 0 allNA 0 rfl).1 (by norm_num)).1
  · exact ((c7_theorem 0 ⟨some 1, some 0⟩ [] 0 allNA 0 rfl).2 (by norm_num)).1

/-- C8, counterexample: `currentDeficit` does not equal
`max(0, idealCumulative(now) - cumulativeGiven)` for the specified
anchor-at-first-event `idealCumulative`: with `rate = 1`, one event of
amount `1` at `t0 = 0` and `now = +1h` the display shows `1` while the
claimed formula gives `0`. -/
theorem c8_counterexample :
    (updateStatisticsDisplay 1 [⟨some 1, some 0⟩] 3600000 allNA).needed
      ≠ StatVal.val (max 0 (1 * calculateHoursBetween (some 0) (some 3600000)
          - totalGivenStat [⟨some 1, some 0⟩])) := by
  norm_num [updateStatisticsDisplay, statsCore, currentNeededStat, statsIdeal,
    statsProjStart, totalGivenStat, calculateHoursBetween]

/-- C8, amended: whenever the timestamp of the first event parses, the displayed
`needed` statistic equals `max(0, I - totalGiven)` where `I` is the
ideal cumulative computed by the code (anchored at the backward-projected start),
hence it is never negative; the deficits of the curve are not clamped and can
be negative (surplus), witnessed by the vertex `(t0 + 1h, -4)` after a
5-unit dose. -/
theorem c8_theorem :
    (∀ (rate : ℚ) (e0 : RawEvent) (rest : List RawEvent) (now : ℤ)
        (prev : StatsDisplay) (t0 : ℤ), e0.dosageTime = some t0 →
      (updateStatisticsDisplay rate (e0 :: rest) now prev).needed
        = StatVal.val (max 0 (statsIdeal rate (e0 :: rest) now - totalGivenStat (e0 :: rest)))
      ∧ 0 ≤ max 0 (statsIdeal rate (e0 :: rest) now - totalGivenStat (e0 :: rest)))
    ∧ Point.mk 3600000 (-4) ∈ calculatePlotData 1 [⟨some 1, some 0⟩, ⟨some 5, some 3600000⟩] 7200000 := by
  constructor
  · intro rate e0 rest now prev t0 ht
    obtain ⟨da, dt⟩ := e0
    simp only at ht
    subst ht
    refine ⟨?_, le_max_left 0 _⟩
    simp [updateStatisticsDisplay, statsCore, currentNeededStat]
  · norm_num [calculatePlotData, plotCore, sortedEvents, validEvents, toPlotEvent,
      sortEventsList, insertSortedEvent, curveCore, initialPoints, pointsAfterEvents,
      projStartOf, cumAmounts, nowStep, calculateHoursBetween]

/-- C8, witness for the clamped-statistic part at concrete inputs. -/
theorem c8_witness :
    (updateStatisticsDisplay 1 [⟨some 1, some 0⟩] 3600000 allNA).needed
      = StatVal.val (max 0 (statsIdeal 1 [⟨some 1, some 0⟩] 3600000
          - totalGivenStat [⟨some 1, some 0⟩])) :=
  (c8_theorem.1 1 ⟨some 1, some 0⟩ [] 3600000 allNA 0 rfl).1

/-- C1, counterexample: with one event at `t0 = 0` and `now = -2h`
(before the last event), no final vertex at `now` is appended: the curve
still ends at the event vertex `(0, 0)` and its length equals the length
of the curve before the `now` block — it does not extend by one vertex. -/
theorem c1_counterexample :
    (calculatePlotData 1 [⟨some 1, some 0⟩] (-7200000)).getLast? = some (Point.mk 0 0)
    ∧ ((0 : ℚ) ≠ ((-7200000 : ℤ) : ℚ))
    ∧ (calculatePlotData 1 [⟨some 1, some 0⟩] (-7200000)).length
        = (walkedPoints 1 [⟨some 1, some 0⟩]).length := by
  refine ⟨?_, by push_cast; norm_num, ?_⟩
  · norm_num [calculatePlotData, plotCore, sortedEvents, validEvents, toPlotEvent,
      sortEventsList, insertSortedEvent, curveCore, initialPoints, pointsAfterEvents,
      projStartOf, cumAmounts, nowStep, calculateHoursBetween]
  · norm_num [calculatePlotData, plotCore, walkedPoints, sortedEvents, validEvents,
      toPlotEvent, sortEventsList, insertSortedEvent, curveCore, initialPoints,
      pointsAfterEvents, projStartOf, cumAmounts, nowStep, calculateHoursBetween]

/-- C1, amended: the final vertex at `now` (with deficit
`rate * hoursBetween(projectedStart, now) - cumulativeGiven`) is appended
only when `now` is strictly later than the last existing vertex; when
`now` equals the instant of the last vertex, the deficit of that vertex is
overwritten in place; when `now` precedes the last vertex the curve is
returned unchanged, with no vertex at `now` (and no exception in any
case — the function is total). -/
theorem c1_theorem (rate : ℚ) (events : List RawEvent) (now : ℤ) (first : PlotEvent) (p : Point)
    (hfirst : (sortedEvents events).head? = some first)
    (hlast : (walkedPoints rate events).getLast? = some p) :
    (p.t < (now : ℚ) → calculatePlotData rate events now
        = walkedPoints rate events ++ [Point.mk (now : ℚ)
            (rate * calculateHoursBetween (some (projStartOf rate first)) (some (now : ℚ))
              - cumAmounts (sortedEvents events))])
    ∧ ((now : ℚ) = p.t → calculatePlotData rate events now
        = (walkedPoints rate events).dropLast ++ [Point.mk p.t
            (rate * calculateHoursBetween (some (projStartOf rate first)) (some (now : ℚ))
              - cumAmounts (sortedEvents events))])
    ∧ (¬ p.t < (now : ℚ) → (now : ℚ) ≠ p.t →
        calculatePlotData rate events now = walkedPoints rate events) := by
  cases hse : sortedEvents events with
  | nil =>
    rw [hse] at hfirst
    simp at hfirst
  | cons f rest =>
    rw [hse] at hfirst
    simp only [List.head?_cons, Option.some.injEq] at hfirst
    subst hfirst
    have hwp : walkedPoints rate events = curveCore rate (f :: rest) := by
      rw [walkedPoints, hse]
    have hplot : calculatePlotData rate events now
        = nowStep rate (projStartOf rate f) (cumAmounts (f :: rest)) now
            (curveCore rate (f :: rest)) := by
      rw [calculatePlotData, hse]
      rfl
    rw [hwp] at hlast
    have hspec := nowStep_spec rate (projStartOf rate f) (cumAmounts (f :: rest)) now
      (curveCore rate (f :: rest)) p hlast
    refine ⟨?_, ?_, ?_⟩
    · intro h
      rw [hplot, hwp]
      exact hspec.1 h
    · intro h
      rw [hplot, hwp]
      exact hspec.2.1 h
    · intro h1 h2
      rw [hplot, hwp]
      exact hspec.2.2 h1 h2

/-- C1, witness: append branch at `now = +2h`, unchanged branch at
`now = -2h`, for one event of amount `1` at `t0 = 0` with `rate = 1`. -/
theorem c1_witness :
    calculatePlotData 1 [⟨some 1, some 0⟩] 7200000
      = walkedPoints 1 [⟨some 1, some 0⟩] ++ [Point.mk ((7200000 : ℤ) : ℚ)
          (1 * calculateHoursBetween (some (projStartOf 1 ⟨0, 1⟩)) (some ((7200000 : ℤ) : ℚ))
            - cumAmounts (sortedEvents [⟨some 1, some 0⟩]))]
    ∧ calculatePlotData 1 [⟨some 1, some 0⟩] (-7200000) = walkedPoints 1 [⟨some 1, some 0⟩] := by
  have hf : (sortedEvents [(⟨some 1, some 0⟩ : RawEvent)]).head? = some (⟨0, 1⟩ : PlotEvent) := by
    norm_num [sortedEvents, validEvents, toPlotEvent, sortEventsList, insertSortedEvent]
  have hl : (walkedPoints 1 [(⟨some 1, some 0⟩ : RawEvent)]).getLast? = some (Point.mk 0 0) := by
    norm_num [walkedPoints, curveCore, sortedEvents, validEvents, toPlotEvent,
      sortEventsList, insertSortedEvent, initialPoints, pointsAfterEvents,
      projStartOf, calculateHoursBetween]
  constructor
  · exact (c1_theorem 1 [⟨some 1, some 0⟩] 7200000 ⟨0, 1⟩ (Point.mk 0 0) hf hl).1
      (by push_cast; norm_num)
  · exact (c1_theorem 1 [⟨some 1, some 0⟩] (-7200000) ⟨0, 1⟩ (Point.mk 0 0) hf hl).2.2
      (by push_cast; norm_num) (by push_cast; norm_num)

/-- C4, counterexample: the curve is not non-decreasing in time from the
first vertex on.  With `rate = 1` and a single event of amount `0`, the
backward projection is zero hours, so the first vertex sits at `t0` and
the second at `t0 - 1ms`: the time coordinate decreases. -/
theorem c4_counterexample :
    ¬ List.Chain' ptLE (calculatePlotData 1 [⟨some 0, some 0⟩] 3600000) := by
  norm_num [calculatePlotData, plotCore, sortedEvents, validEvents, toPlotEvent,
    sortEventsList, insertSortedEvent, curveCore, initialPoints, pointsAfterEvents,
    projStartOf, cumAmounts, nowStep, calculateHoursBetween, List.chain'_cons, ptLE]

/-- C4, amended: the engine does sort the events ascending by timestamp
(the sorted list is an ascending permutation of the valid events), and the
curve is non-decreasing in time from its **second** vertex through the
final vertex; the full curve, first vertex included, is non-decreasing
whenever the backward projection `firstAmount/rate` hours spans at least
one millisecond. -/
theorem c4_theorem (rate : ℚ) (events : List RawEvent) (now : ℤ) (hrate : 0 < rate) :
    ((sortedEvents events).Pairwise evLE
      ∧ List.Perm (sortedEvents events) (validEvents events))
    ∧ List.Chain' ptLE ((calculatePlotData rate events now).tail)
    ∧ (∀ first, (sortedEvents events).head? = some first →
        (1 : ℚ) ≤ first.amount / rate * 3600000 →
        List.Chain' ptLE (calculatePlotData rate events now)) := by
  refine ⟨⟨sortEventsList_pairwise _, sortEventsList_perm _⟩, ?_, ?_⟩
  · cases hse : sortedEvents events with
    | nil =>
      rw [calculatePlotData, hse]
      simp [plotCore]
    | cons first rest =>
      obtain ⟨T, hT1, hT2, _⟩ := calculatePlotData_structure rate events now first rest hse
      rw [hT1]
      simpa using hT2
  · intro first hfirst hIDH
    cases hse : sortedEvents events with
    | nil =>
      rw [hse] at hfirst
      simp at hfirst
    | cons f rest =>
      rw [hse] at hfirst
      simp only [List.head?_cons, Option.some.injEq] at hfirst
      subst hfirst
      obtain ⟨T, hT1, hT2, hT3⟩ := calculatePlotData_structure rate events now f rest hse
      rw [hT1, List.chain'_cons']
      refine ⟨?_, hT2⟩
      intro y hy
      rw [hT3] at hy
      simp only [Option.mem_def, Option.some.injEq] at hy
      subst hy
      show ptLE (Point.mk (projStartOf rate f) 0) _
      simp only [ptLE, projStartOf]
      linarith

/-- C4, witness: with a normal input (amount `1`, `rate = 1`) the whole
curve is non-decreasing in time. -/
theorem c4_witness :
    List.Chain' ptLE (calculatePlotData 1 [⟨some 1, some 0⟩] 3600000) := by
  refine (c4_theorem 1 [⟨some 1, some 0⟩] 3600000 (by norm_num)).2.2 ⟨0, 1⟩ ?_ ?_
  · norm_num [sortedEvents, validEvents, toPlotEvent, sortEventsList, insertSortedEvent]
  · norm_num
